import Mathlib

/-!
Shallow embedding of the freeq I/O core: the queue tailer `scripts/pi-inbox.py`
(durable cursor store `load_offset`/`save_offset` and the poll-cycle loop `main`)
and the readiness multiplexer `scripts/pi-merge-input.py`.

File contents and text lines are modelled as `List Char`.  `json.loads`
(strict mode, the default) is modelled conservatively: the model accepts only
a single flat object whose values are escape-free strings without raw control
characters, canonically written integers, booleans or null — every input the
model accepts is accepted by CPython's decoder with the same key/value map,
so theorems whose hypotheses state model-acceptance (`emitLine _ = some _`)
are sound for the program.  The model rejects some inputs CPython accepts
(escapes, floats, nested containers, non-object top-level values), so
model-rejection is NOT evidence of program rejection; where a theorem needs a
line the program also rejects, it uses `clearlyInvalid`, a decidable
sufficient condition for `json.JSONDecodeError` (blank, or the first
non-whitespace character cannot start any JSON value).  Line splitting
follows `str.splitlines` (including CR LF and the one-character breaks CR,
VT, FF, FS, GS, RS, NEL, LS, PS).  File-system effects are explicit state
passing; OS readiness events for the multiplexer are an explicit event
trace.
-/

/-- Whitespace characters recognised by both `str.strip` blank checks and the
JSON inter-token whitespace in the modelled subset. -/
def isWS (c : Char) : Bool :=
  c = ' ' || c = '\t' || c = '\n' || c = '\r'

def skipWS (cs : List Char) : List Char :=
  cs.dropWhile isWS

/-- JSON values in the modelled subset (flat scalars, as produced by
`json.loads` on the queue records). -/
inductive JVal where
  | jnull : JVal
  | jbool : Bool → JVal
  | jint : Int → JVal
  | jstr : String → JVal
deriving DecidableEq

/-- A parsed JSON object: association list of key/value pairs, in file order
(later duplicates override earlier ones on lookup, as in a Python dict). -/
abbrev Entry := List (String × JVal)

/-- `dict.get(k)`: last binding of `k` wins, `none` when the key is absent. -/
def pyGet (e : Entry) (k : String) : Option JVal :=
  (e.reverse.find? (fun p => p.1 == k)).map Prod.snd

/-- Body of a JSON string literal after the opening quote: plain characters up
to the closing quote.  A raw control character (code point below 0x20) is a
decode error in CPython's strict mode and fails here too; escape sequences
are outside the modelled subset and also fail (conservative rejection). -/
def parseStrBody : List Char → List Char → Option (String × List Char)
  | [], _ => none
  | c :: rest, acc =>
      if c = '"' then some (⟨acc.reverse⟩, rest)
      else if c = '\\' then none
      else if c.toNat < 32 then none
      else parseStrBody rest (c :: acc)

/-- Big-endian decimal value of a list of digit characters. -/
def digitsVal (cs : List Char) : Nat :=
  cs.foldl (fun a c => 10 * a + (c.toNat - 48)) 0

/-- Digit run of a JSON integer; a multi-digit run with a leading zero is not
a JSON number and is rejected, as CPython's decoder rejects it. -/
def parseNatTok (cs : List Char) : Option (Nat × List Char) :=
  match cs.takeWhile Char.isDigit with
  | [] => none
  | d :: ds =>
      if d = '0' && !ds.isEmpty then none
      else some (digitsVal (d :: ds), cs.dropWhile Char.isDigit)

def parseIntTok (cs : List Char) : Option (Int × List Char) :=
  match cs with
  | '-' :: rest => (parseNatTok rest).map (fun p => (-(p.1 : Int), p.2))
  | _ => (parseNatTok cs).map (fun p => ((p.1 : Int), p.2))

/-- One scalar JSON value. -/
def parseVal (cs : List Char) : Option (JVal × List Char) :=
  match cs with
  | '"' :: rest => (parseStrBody rest []).map (fun p => (JVal.jstr p.1, p.2))
  | 'n' :: 'u' :: 'l' :: 'l' :: rest => some (JVal.jnull, rest)
  | 't' :: 'r' :: 'u' :: 'e' :: rest => some (JVal.jbool true, rest)
  | 'f' :: 'a' :: 'l' :: 's' :: 'e' :: rest => some (JVal.jbool false, rest)
  | _ => (parseIntTok cs).map (fun p => (JVal.jint p.1, p.2))

/-- Members of a JSON object after the opening brace, fuel-bounded by the
input length. -/
def parseMembers : Nat → List Char → Entry → Option (Entry × List Char)
  | 0, _, _ => none
  | fuel + 1, cs, acc =>
      match skipWS cs with
      | '"' :: rest =>
          match parseStrBody rest [] with
          | none => none
          | some (k, r1) =>
              match skipWS r1 with
              | ':' :: r2 =>
                  match parseVal (skipWS r2) with
                  | none => none
                  | some (v, r3) =>
                      match skipWS r3 with
                      | ',' :: r4 => parseMembers fuel r4 (acc ++ [(k, v)])
                      | '}' :: r4 => some (acc ++ [(k, v)], r4)
                      | _ => none
              | _ => none
      | _ => none

/-- The object branch of `jsonLoads`, after the opening brace: an empty
object or a member list, then nothing but whitespace to the end. -/
def jsonLoadsObj (cs rest : List Char) : Option Entry :=
  match skipWS rest with
  | '}' :: r2 => if (skipWS r2).isEmpty then some [] else none
  | _ =>
      match parseMembers (cs.length + 1) rest [] with
      | none => none
      | some (e, r) => if (skipWS r).isEmpty then some e else none

/-- `json.loads` on one queue line, restricted to the modelled subset: a single
flat object covering the whole input (up to surrounding whitespace).  Anything
else is a decode failure. -/
def jsonLoads (cs : List Char) : Option Entry :=
  match skipWS cs with
  | [] => none
  | c :: rest => if c = '{' then jsonLoadsObj cs rest else none

/-- Little-endian decimal digits of `n`, fuel-bounded (`fuel ≥ n` suffices). -/
def digitsRev : Nat → Nat → List Nat
  | 0, _ => []
  | _ + 1, 0 => []
  | fuel + 1, n + 1 => ((n + 1) % 10) :: digitsRev fuel ((n + 1) / 10)

/-- Little-endian decimal evaluation, inverse of `digitsRev`. -/
def ofDigitsLE : List Nat → Nat
  | [] => 0
  | d :: ds => d + 10 * ofDigitsLE ds

def decChar : Nat → Char
  | 0 => '0'
  | 1 => '1'
  | 2 => '2'
  | 3 => '3'
  | 4 => '4'
  | 5 => '5'
  | 6 => '6'
  | 7 => '7'
  | 8 => '8'
  | 9 => '9'
  | _ => '*'

/-- Python `str(n)` for a non-negative integer. -/
def natRepr (n : Nat) : List Char :=
  if n = 0 then ['0'] else ((digitsRev n n).map decChar).reverse

/-- Python `str(n)` for an `int`. -/
def intRepr (n : Int) : String :=
  if n < 0 then ⟨'-' :: natRepr n.natAbs⟩ else ⟨natRepr n.toNat⟩

/-- Python `str()` of a field value obtained by `entry.get(...)`: a missing key
or a JSON `null` renders as `None`. -/
def pyStr : Option JVal → String
  | none => "None"
  | some JVal.jnull => "None"
  | some (JVal.jbool true) => "True"
  | some (JVal.jbool false) => "False"
  | some (JVal.jint n) => intRepr n
  | some (JVal.jstr s) => s

/-- The notification line printed for one parsed record:
`[pi:<target>] <text> (did=<did>, ts=<ts>)`. -/
def formatEntry (e : Entry) : String :=
  "[pi:" ++ pyStr (pyGet e "target") ++ "] " ++ pyStr (pyGet e "text")
    ++ " (did=" ++ pyStr (pyGet e "did") ++ ", ts=" ++ pyStr (pyGet e "ts") ++ ")"

/-- The tailer's per-line behaviour inside the read loop: skip the line when it
is blank (`not line.strip()`) or fails to decode, otherwise emit the formatted
notification. -/
def emitLine (l : List Char) : Option String :=
  if (skipWS l).isEmpty then none
  else
    match jsonLoads l with
    | none => none
    | some e => some (formatEntry e)

/-- The characters at which `str.splitlines` breaks: LF, CR, VT, FF, FS, GS,
RS, NEL, LS, PS (CR LF counts as a single break). -/
def isLineBreak (c : Char) : Bool :=
  c = '\n' || c = '\r' || c = '\x0b' || c = '\x0c' || c = '\x1c' || c = '\x1d'
    || c = '\x1e' || c = '\x85' || c = '\u2028' || c = '\u2029'

/-- Characters that can begin a JSON value in CPython's decoder (object,
array, string, number, or one of the literals including NaN/Infinity).  A
line whose first non-whitespace character is outside this set raises
`Expecting value`. -/
def pyJsonStart (c : Char) : Bool :=
  c = '{' || c = '[' || c = '"' || c = '-' || c.isDigit
    || c = 't' || c = 'f' || c = 'n' || c = 'N' || c = 'I'

/-- A decidable sufficient condition for the program to emit nothing for a
line: blank (skipped before parsing), or the first non-whitespace character
cannot start any JSON value, so `json.loads` raises and the line is skipped.
The model's `emitLine` returns `none` on such lines too. -/
def clearlyInvalid (b : List Char) : Bool :=
  match skipWS b with
  | [] => true
  | c :: _ => !(pyJsonStart c)

/-- `str.splitlines`: complete lines between break characters, a trailing
unterminated segment kept, a trailing terminator producing no empty line,
CR LF consumed as one break. -/
def splitLinesAux : List Char → List Char → List (List Char)
  | [], acc => if acc.isEmpty then [] else [acc.reverse]
  | [c], acc =>
      if isLineBreak c then [acc.reverse]
      else [(c :: acc).reverse]
  | c1 :: c2 :: rest, acc =>
      if c1 = '\r' && c2 = '\n' then acc.reverse :: splitLinesAux rest []
      else if isLineBreak c1 then acc.reverse :: splitLinesAux (c2 :: rest) []
      else splitLinesAux (c2 :: rest) (c1 :: acc)

def splitLines (cs : List Char) : List (List Char) :=
  splitLinesAux cs []

/-- The body of `if data:` in the tailer: split the newly read bytes into
lines and emit one notification per valid record, in file order. -/
def processData (data : List Char) : List String :=
  (splitLines data).filterMap emitLine

/-- What one poll cycle observes from the OS: `open` raising
`FileNotFoundError`, `open`/`read` raising some other `OSError`, or success
with the queue file's current contents. -/
inductive TailEvent where
  | notFound : TailEvent
  | ioError : TailEvent
  | content : List Char → TailEvent

/-- Result of one iteration of the tailer's `while True` body: the cursor
afterwards, the lines printed, the offset passed to `save_offset` (if
reached), and whether an uncaught exception escaped the iteration. -/
structure CycleResult where
  offset : Nat
  output : List String
  saved : Option Nat
  fatal : Bool
deriving DecidableEq

/-- One iteration of `main`'s loop.  On success: observe the length `end`,
reset the cursor to 0 if the file shrank below it, seek and read to
end-of-file, emit per-line notifications, then set the cursor to the position
after the read and persist it.  `FileNotFoundError` is caught (`pass`);
any other error propagates (`fatal`). -/
def pollCycle (offset : Nat) : TailEvent → CycleResult
  | TailEvent.notFound => ⟨offset, [], none, false⟩
  | TailEvent.ioError => ⟨offset, [], none, true⟩
  | TailEvent.content s =>
      let endPos := s.length
      let off1 := if endPos < offset then 0 else offset
      let data := s.drop off1
      let out := if data.isEmpty then [] else processData data
      let newOff := off1 + data.length
      ⟨newOff, out, some newOff, false⟩

/-- The tailer's loop over a trace of cycle events: accumulates printed lines
and the cursor; stops (with the halt flag) when an iteration raises an
uncaught exception. -/
def runTailer (offset : Nat) : List TailEvent → List String × Nat × Bool
  | [] => ([], offset, false)
  | ev :: rest =>
      let r := pollCycle offset ev
      if r.fatal then (r.output, r.offset, true)
      else
        let t := runTailer r.offset rest
        (r.output ++ t.1, t.2.1, t.2.2)

/-- Queue file contents built from a list of record lines, each terminated by
a newline (the producer appends one record per line). -/
def joinLines (ls : List (List Char)) : List Char :=
  ls.foldr (fun l acc => l ++ '\n' :: acc) []

/-- The state-file directory as the cursor store sees it: the state file and
the temporary file `STATE + ".tmp"` beside it (`none` = absent). -/
structure StoreFS where
  state : Option (List Char)
  tmp : Option (List Char)
deriving DecidableEq

/-- First half of `save_offset`: write `str(offset)` to the temporary file. -/
def writeTmp (fs : StoreFS) (offset : Nat) : StoreFS :=
  { fs with tmp := some (natRepr offset) }

/-- Second half of `save_offset`: `os.replace(tmp, STATE)` — atomically move
the temporary file over the state file. -/
def renameTmp (fs : StoreFS) : StoreFS :=
  { state := fs.tmp, tmp := none }

/-- `save_offset(offset)`: write-temp-then-rename. -/
def save_offset (fs : StoreFS) (offset : Nat) : StoreFS :=
  renameTmp (writeTmp fs offset)

/-- Python `str.strip` on the state-file text. -/
def pyStrip (cs : List Char) : List Char :=
  ((cs.dropWhile isWS).reverse.dropWhile isWS).reverse

def parseNatDigits (cs : List Char) : Option Nat :=
  if !cs.isEmpty && cs.all Char.isDigit then some (digitsVal cs) else none

/-- Python `int(...)` on stripped text: optional sign, then decimal digits;
anything else raises (here: `none`). -/
def parseInt (cs : List Char) : Option Int :=
  match cs with
  | [] => none
  | c :: rest =>
      if c = '-' then (parseNatDigits rest).map (fun n => -(n : Int))
      else if c = '+' then (parseNatDigits rest).map (fun n => (n : Int))
      else (parseNatDigits (c :: rest)).map (fun n => (n : Int))

/-- `load_offset()`: `int(f.read().strip() or "0")`, with a missing file or
any parse failure yielding 0. -/
def load_offset (fs : StoreFS) : Int :=
  match fs.state with
  | none => 0
  | some cs =>
      let t := pyStrip cs
      let t1 := if t.isEmpty then ['0'] else t
      (parseInt t1).getD 0

/-- Did the line arrive with its trailing newline? (`line.endswith("\n")`). -/
def endsNL (l : List Char) : Bool :=
  l.getLast? == some '\n'

/-- State of `pi-merge-input.py`: bytes buffered on stdin (Source A), complete
lines buffered in the FIFO (Source B), the chunks written to stdout so far,
and how many times the FIFO has been opened (`os.open` runs once, before the
loop; no step reopens it). -/
structure MuxState where
  stdinBuf : List Char
  fifoLines : List (List Char)
  output : List (List Char)
  fifoOpens : Nat
deriving DecidableEq

/-- Startup: empty buffers, one `os.open(fifo, O_RDONLY | O_NONBLOCK)`. -/
def muxInit : MuxState :=
  ⟨[], [], [], 1⟩

/-- Events of the multiplexer loop: data arriving on a source, or the
selector reporting that source ready and its handler running.  A `wakeB` with
an empty FIFO buffer models both "no data yet" and "writer closed (EOF)":
`readline` returns the empty string either way. -/
inductive MuxEvent where
  | arriveA : List Char → MuxEvent
  | arriveB : List Char → MuxEvent
  | wakeA : MuxEvent
  | wakeB : MuxEvent

/-- One loop reaction.  Source A ready: `sys.stdin.read()` drains every
buffered byte and writes it verbatim when non-empty.  Source B ready:
`file_fifo.readline()` takes one line; `if line:` skips an empty read; a line
without a trailing newline gets one appended. -/
def muxStep (st : MuxState) : MuxEvent → MuxState
  | MuxEvent.arriveA s => { st with stdinBuf := st.stdinBuf ++ s }
  | MuxEvent.arriveB l => { st with fifoLines := st.fifoLines ++ [l] }
  | MuxEvent.wakeA =>
      if st.stdinBuf.isEmpty then st
      else { st with stdinBuf := [], output := st.output ++ [st.stdinBuf] }
  | MuxEvent.wakeB =>
      match st.fifoLines with
      | [] => st
      | l :: rest =>
          { st with fifoLines := rest,
                    output := st.output ++ [if endsNL l then l else l ++ ['\n']] }

/-- The multiplexer loop over a trace of arrival/readiness events. -/
def muxRun (evs : List MuxEvent) : MuxState :=
  evs.foldl muxStep muxInit

/-- First record line of the spec's end-to-end example. -/
def exHi : List Char :=
  ("\x7b\"ts\":1,\"did\":\"abc\",\"text\":\"hi\",\"target\":\"room1\"\x7d").data

/-- Second record line of the spec's end-to-end example. -/
def exBye : List Char :=
  ("\x7b\"ts\":2,\"did\":\"abc\",\"text\":\"bye\",\"target\":\"room1\"\x7d").data

/-- The example queue file: both records, each newline-terminated. -/
def exQueue : List Char :=
  joinLines [exHi, exBye]

/-- A queue line that parses as a JSON object but carries only `ts`. -/
def exMissing : List Char :=
  ("\x7b\"ts\":1\x7d").data

theorem isEmpty_false_of_ne_nil {α : Type} {l : List α} (h : l ≠ []) :
    l.isEmpty = false := by
  cases l with
  | nil => exact absurd rfl h
  | cons a t => rfl

theorem dropWhile_eq_self_of_not (p : Char → Bool) (l : List Char)
    (h : ∀ c ∈ l, p c = false) : l.dropWhile p = l := by
  cases l with
  | nil => rfl
  | cons a t => simp [List.dropWhile_cons, h a (List.mem_cons_self a t)]

theorem decChar_spec : ∀ d, d < 10 →
    ((decChar d).toNat - 48 = d ∧ (decChar d).isDigit = true ∧ isWS (decChar d) = false) := by
  decide

theorem digitsRev_lt : ∀ fuel n d, d ∈ digitsRev fuel n → d < 10 := by
  intro fuel
  induction fuel with
  | zero => intro n d hd; simp [digitsRev] at hd
  | succ f ih =>
      intro n d hd
      cases n with
      | zero => simp [digitsRev] at hd
      | succ m =>
          rw [digitsRev] at hd
          rcases List.mem_cons.mp hd with h | h
          · subst h; exact Nat.mod_lt _ (by omega)
          · exact ih _ _ h

theorem ofDigitsLE_digitsRev : ∀ fuel n, n ≤ fuel → ofDigitsLE (digitsRev fuel n) = n := by
  intro fuel
  induction fuel with
  | zero => intro n hn; interval_cases n; rfl
  | succ f ih =>
      intro n hn
      cases n with
      | zero => rfl
      | succ m =>
          rw [digitsRev, ofDigitsLE]
          have hdiv : (m + 1) / 10 ≤ f := by
            have : (m + 1) / 10 < m + 1 := Nat.div_lt_self (by omega) (by omega)
            omega
          rw [ih _ hdiv]
          omega

theorem digitsVal_rev_map (L : List Nat) (h : ∀ d ∈ L, d < 10) :
    digitsVal ((L.map decChar).reverse) = ofDigitsLE L := by
  unfold digitsVal
  rw [List.foldl_reverse, List.foldr_map]
  induction L with
  | nil => rfl
  | cons d t ih =>
      rw [List.foldr_cons, ofDigitsLE]
      rw [ih (fun x hx => h x (List.mem_cons_of_mem d hx))]
      have hd := (decChar_spec d (h d (List.mem_cons_self d t))).1
      omega

theorem natRepr_ne_nil (n : Nat) : natRepr n ≠ [] := by
  unfold natRepr
  by_cases hn : n = 0
  · simp [hn]
  · simp only [hn, if_false]
    intro hcon
    have : digitsRev n n = [] := by
      rcases List.reverse_eq_nil_iff.mp hcon with h
      exact List.map_eq_nil_iff.mp h
    obtain ⟨m, rfl⟩ := Nat.exists_eq_succ_of_ne_zero hn
    rw [digitsRev] at this
    exact List.noConfusion this

theorem natRepr_digits (n : Nat) : ∀ c ∈ natRepr n, c.isDigit = true ∧ isWS c = false := by
  intro c hc
  unfold natRepr at hc
  by_cases hn : n = 0
  · simp [hn] at hc
    subst hc
    exact ⟨by decide, by decide⟩
  · simp only [hn, if_false, List.mem_reverse] at hc
    obtain ⟨d, hd, rfl⟩ := List.mem_map.mp hc
    have hlt := digitsRev_lt n n d hd
    exact ⟨(decChar_spec d hlt).2.1, (decChar_spec d hlt).2.2⟩

theorem digitsVal_natRepr (n : Nat) : digitsVal (natRepr n) = n := by
  unfold natRepr
  by_cases hn : n = 0
  · simp [hn]; rfl
  · simp only [hn, if_false]
    rw [digitsVal_rev_map _ (digitsRev_lt n n)]
    exact ofDigitsLE_digitsRev n n le_rfl

theorem parseNatDigits_natRepr (n : Nat) : parseNatDigits (natRepr n) = some n := by
  unfold parseNatDigits
  have h1 : (natRepr n).isEmpty = false := isEmpty_false_of_ne_nil (natRepr_ne_nil n)
  have h2 : (natRepr n).all Char.isDigit = true :=
    List.all_eq_true.mpr (fun c hc => (natRepr_digits n c hc).1)
  simp [h1, h2, digitsVal_natRepr]

theorem parseInt_natRepr (n : Nat) : parseInt (natRepr n) = some (n : Int) := by
  rcases hcr : natRepr n with _ | ⟨c, rest⟩
  · exact absurd hcr (natRepr_ne_nil n)
  · have hc : c.isDigit = true := (natRepr_digits n c (by rw [hcr]; exact List.mem_cons_self c rest)).1
    have hminus : ¬(c = '-') := by intro h; rw [h] at hc; exact Bool.noConfusion hc
    have hplus : ¬(c = '+') := by intro h; rw [h] at hc; exact Bool.noConfusion hc
    rw [parseInt, if_neg hminus, if_neg hplus, ← hcr, parseNatDigits_natRepr]
    rfl

theorem pyStrip_natRepr (n : Nat) : pyStrip (natRepr n) = natRepr n := by
  unfold pyStrip
  rw [dropWhile_eq_self_of_not _ _ (fun c hc => (natRepr_digits n c hc).2)]
  rw [dropWhile_eq_self_of_not _ _ (fun c hc =>
    (natRepr_digits n c (List.mem_reverse.mp hc)).2)]
  exact List.reverse_reverse _

theorem load_save_roundtrip (fs : StoreFS) (off : Nat) :
    load_offset (save_offset fs off) = (off : Int) := by
  have h : save_offset fs off = ⟨some (natRepr off), none⟩ := rfl
  rw [h]
  show (parseInt (if (pyStrip (natRepr off)).isEmpty = true
          then ['0'] else pyStrip (natRepr off))).getD 0 = (off : Int)
  rw [pyStrip_natRepr, isEmpty_false_of_ne_nil (natRepr_ne_nil off)]
  simp [parseInt_natRepr]

theorem joinLines_nil : joinLines [] = [] := rfl

theorem joinLines_cons (l : List Char) (t : List (List Char)) :
    joinLines (l :: t) = l ++ '\n' :: joinLines t := rfl

theorem joinLines_append (a b : List (List Char)) :
    joinLines (a ++ b) = joinLines a ++ joinLines b := by
  induction a with
  | nil => rfl
  | cons l t ih =>
      rw [List.cons_append, joinLines_cons, joinLines_cons, ih]
      simp

theorem joinLines_ne_nil (ls : List (List Char)) (h : ls ≠ []) : joinLines ls ≠ [] := by
  cases ls with
  | nil => exact absurd rfl h
  | cons l t =>
      rw [joinLines_cons]
      simp

theorem splitLinesAux_line (l t acc : List Char) (h : ∀ ch ∈ l, isLineBreak ch = false) :
    splitLinesAux (l ++ '\n' :: t) acc = (acc.reverse ++ l) :: splitLinesAux t [] := by
  induction l generalizing acc with
  | nil =>
      cases t with
      | nil => simp [splitLinesAux, isLineBreak]
      | cons c2 t2 => simp [splitLinesAux, isLineBreak]
  | cons c cs ih =>
      have hc : isLineBreak c = false := h c (List.mem_cons_self c cs)
      have hcr : ¬(c = '\r') := by
        intro he
        rw [he] at hc
        exact absurd hc (by decide)
      have ih2 := ih (c :: acc) (fun ch hm => h ch (List.mem_cons_of_mem c hm))
      cases cs with
      | nil =>
          rw [List.cons_append, List.nil_append, splitLinesAux]
          rw [if_neg (by simp [hcr]), if_neg (by simp [hc])]
          rw [List.nil_append] at ih2
          rw [ih2]
          simp
      | cons d cs2 =>
          rw [List.cons_append, List.cons_append, splitLinesAux]
          rw [if_neg (by simp [hcr]), if_neg (by simp [hc])]
          rw [← List.cons_append, ih2]
          simp

theorem splitLines_joinLines (ls : List (List Char))
    (h : ∀ l ∈ ls, ∀ ch ∈ l, isLineBreak ch = false) :
    splitLines (joinLines ls) = ls := by
  induction ls with
  | nil => rfl
  | cons l t ih =>
      unfold splitLines at *
      rw [joinLines_cons, splitLinesAux_line l _ [] (h l (List.mem_cons_self l t))]
      rw [ih (fun x hx => h x (List.mem_cons_of_mem l hx))]
      simp

theorem processData_joinLines (ls : List (List Char))
    (h : ∀ l ∈ ls, ∀ ch ∈ l, isLineBreak ch = false) :
    processData (joinLines ls) = ls.filterMap emitLine := by
  unfold processData
  rw [splitLines_joinLines ls h]

theorem length_filterMap_of_isSome (f : List Char → Option String) (ls : List (List Char))
    (h : ∀ l ∈ ls, (f l).isSome) : (ls.filterMap f).length = ls.length := by
  induction ls with
  | nil => rfl
  | cons a t ih =>
      obtain ⟨b, hb⟩ := Option.isSome_iff_exists.mp (h a (List.mem_cons_self a t))
      rw [List.filterMap_cons, hb]
      rw [List.length_cons, List.length_cons]
      rw [ih (fun l hl => h l (List.mem_cons_of_mem a hl))]

theorem pollCycle_resume (ls : List (List Char)) (J : Nat)
    (h : ∀ l ∈ ls, ∀ ch ∈ l, isLineBreak ch = false) :
    pollCycle (joinLines (ls.take J)).length (TailEvent.content (joinLines ls)) =
      ⟨(joinLines ls).length, (ls.drop J).filterMap emitLine,
        some (joinLines ls).length, false⟩ := by
  have hsplit : joinLines ls = joinLines (ls.take J) ++ joinLines (ls.drop J) := by
    rw [← joinLines_append, List.take_append_drop]
  rw [hsplit]
  simp only [pollCycle]
  have h1 : ¬((joinLines (ls.take J) ++ joinLines (ls.drop J)).length
      < (joinLines (ls.take J)).length) := by
    rw [List.length_append]
    omega
  rw [if_neg h1, List.drop_left]
  by_cases hB : ls.drop J = []
  · rw [hB]
    simp [joinLines_nil]
  · have hBe : (joinLines (ls.drop J)).isEmpty = false :=
      isEmpty_false_of_ne_nil (joinLines_ne_nil _ hB)
    rw [hBe]
    simp only [Bool.false_eq_true, if_false]
    rw [processData_joinLines _ (fun l hl => h l (List.drop_subset J ls hl))]
    simp [List.length_append]

theorem pollCycle_steady (s : List Char) :
    pollCycle s.length (TailEvent.content s) = ⟨s.length, [], some s.length, false⟩ := by
  simp [pollCycle, List.drop_length]

theorem runTailer_steady (s : List Char) :
    ∀ k, runTailer s.length (List.replicate k (TailEvent.content s)) = ([], s.length, false) := by
  intro k
  induction k with
  | zero => rfl
  | succ n ih =>
      rw [List.replicate_succ]
      simp only [runTailer]
      rw [pollCycle_steady]
      simp [ih]

/-- C1: in a poll cycle starting at any record boundary, every newly read
line that decodes as a JSON record produces exactly one notification line of
the form `[pi:<target>] <text> (did=<did>, ts=<ts>)` (see `emitLine` /
`formatEntry`), in file order, and the cycle persists the byte length of the
queue file as the new cursor.  The hypotheses — ASCII lines with no
`str.splitlines` break characters, each accepted by the strict conservative
parser (`emitLine _ .isSome`, which CPython's `json.loads` then also accepts
with the same key/value map) — make model offsets the program's byte offsets
and model emissions the program's.  The spec's two-record example is the
witness. -/
theorem tailer_emits_formatted (ls : List (List Char)) (J : Nat)
    (hascii : ∀ l ∈ ls, ∀ ch ∈ l, ch.toNat < 128)
    (hnl : ∀ l ∈ ls, ∀ ch ∈ l, isLineBreak ch = false)
    (hv : ∀ l ∈ ls, (emitLine l).isSome) :
    (pollCycle (joinLines (ls.take J)).length (TailEvent.content (joinLines ls))).output
        = (ls.drop J).filterMap emitLine ∧
    ((ls.drop J).filterMap emitLine).length = ls.length - J ∧
    (pollCycle (joinLines (ls.take J)).length (TailEvent.content (joinLines ls))).saved
        = some (joinLines ls).length := by
  rw [pollCycle_resume ls J hnl]
  refine ⟨rfl, ?_, rfl⟩
  rw [length_filterMap_of_isSome _ _ (fun l hl => hv l (List.drop_subset J ls hl))]
  exact List.length_drop J ls

theorem tailer_emits_formatted_witness :
    (pollCycle 0 (TailEvent.content exQueue)).output =
      ["[pi:room1] hi (did=abc, ts=1)", "[pi:room1] bye (did=abc, ts=2)"] ∧
    (pollCycle 0 (TailEvent.content exQueue)).saved = some 101 ∧
    exQueue.length = 101 := by
  have h := tailer_emits_formatted [exHi, exBye] 0 (by decide) (by decide) (by decide)
  exact ⟨h.1.trans (by decide), h.2.2.trans (by decide), by decide⟩

/-- C2: restarting the tailer with the persisted cursor at the byte offset
just past record `J` of an `N`-record queue file emits records `J+1 .. N`
each exactly once — in order, never re-emitting records `1 .. J` — no matter
how many further poll cycles run over the unchanged file.  Taking `J = K`
gives the cursor-persisted case; taking `J` = the previously persisted
boundary gives the lost-persist case, whose duplicates are exactly the one
re-scan `J+1 .. K`.  Hypotheses as in C1: ASCII record lines with no break
characters, each accepted by the strict conservative parser, so model
offsets/emissions are the program's. -/
theorem tailer_idempotent_resume (ls : List (List Char)) (J m : Nat)
    (hascii : ∀ l ∈ ls, ∀ ch ∈ l, ch.toNat < 128)
    (hnl : ∀ l ∈ ls, ∀ ch ∈ l, isLineBreak ch = false)
    (hv : ∀ l ∈ ls, (emitLine l).isSome) :
    (runTailer (joinLines (ls.take J)).length
        (List.replicate (m + 1) (TailEvent.content (joinLines ls)))).1
      = (ls.drop J).filterMap emitLine ∧
    ((ls.drop J).filterMap emitLine).length = ls.length - J := by
  constructor
  · rw [List.replicate_succ]
    simp only [runTailer]
    rw [pollCycle_resume ls J hnl]
    simp only [Bool.false_eq_true, if_false]
    rw [runTailer_steady (joinLines ls) m]
    simp
  · rw [length_filterMap_of_isSome _ _ (fun l hl => hv l (List.drop_subset J ls hl))]
    exact List.length_drop J ls

theorem tailer_idempotent_resume_witness :
    (runTailer (joinLines ([exHi, exBye].take 1)).length
        (List.replicate 2 (TailEvent.content (joinLines [exHi, exBye])))).1
      = ["[pi:room1] bye (did=abc, ts=2)"] ∧
    (joinLines ([exHi, exBye].take 1)).length = 50 := by
  have h := tailer_idempotent_resume [exHi, exBye] 1 1 (by decide) (by decide) (by decide)
  exact ⟨h.1.trans (by decide), by decide⟩

/-- C3: `save_offset` is write-temp-then-rename: the temporary-file write
leaves the state file untouched, so a crash (or concurrent read) between the
two steps still reads the prior offset, and after the atomic rename the new
offset is read back exactly — a reader observes the old value or the new
value, never a partial one. -/
theorem save_offset_atomic (fs : StoreFS) (off : Nat) :
    save_offset fs off = renameTmp (writeTmp fs off) ∧
    (writeTmp fs off).state = fs.state ∧
    load_offset (writeTmp fs off) = load_offset fs ∧
    load_offset (save_offset fs off) = (off : Int) := by
  refine ⟨rfl, rfl, rfl, load_save_roundtrip fs off⟩

/-- C4 (amended): only `FileNotFoundError` is caught by the tailer's loop —
a missing queue file skips the cycle and the loop goes on unchanged — while
any other I/O error propagates out of the `try` and terminates the loop,
leaving every later cycle unprocessed. -/
theorem tailer_only_notfound_caught (off : Nat) (rest : List TailEvent) :
    runTailer off (TailEvent.notFound :: rest) = runTailer off rest ∧
    runTailer off (TailEvent.ioError :: rest) = ([], off, true) := by
  constructor
  · simp [runTailer, pollCycle]
  · simp [runTailer, pollCycle]

/-- C4 (counterexample): an I/O error other than a missing queue file is not
caught — the iteration is fatal and the loop halts, never reaching the next
cycle's queue contents, contradicting the claim that every I/O error is
retried. -/
theorem tailer_io_error_terminates :
    (pollCycle 0 TailEvent.ioError).fatal = true ∧
    runTailer 0 [TailEvent.ioError, TailEvent.content exQueue] = ([], 0, true) := by
  exact ⟨rfl, rfl⟩

/-- C5: when the queue file's length at the start of a cycle is strictly
below the stored cursor, the cycle behaves exactly as if the cursor were 0:
it reprocesses the whole file from offset 0 instead of skipping to the end. -/
theorem tailer_truncation_reset (s : List Char) (off : Nat) (h : s.length < off) :
    pollCycle off (TailEvent.content s) = pollCycle 0 (TailEvent.content s) := by
  simp only [pollCycle]
  rw [if_pos h, if_neg (Nat.not_lt_zero s.length)]

theorem tailer_truncation_reset_witness :
    exQueue.length < 1000 ∧
    pollCycle 1000 (TailEvent.content exQueue) = pollCycle 0 (TailEvent.content exQueue) :=
  ⟨by decide, tailer_truncation_reset exQueue 1000 (by decide)⟩

theorem emitLine_of_clearlyInvalid (b : List Char) (h : clearlyInvalid b = true) :
    emitLine b = none := by
  unfold clearlyInvalid at h
  cases hs : skipWS b with
  | nil =>
      unfold emitLine
      rw [hs]
      rfl
  | cons c rest =>
      rw [hs] at h
      have h3 : (!(pyJsonStart c)) = true := h
      have hpc : ¬(c = '{') := by
        intro he
        rw [he] at h3
        exact absurd h3 (by decide)
      have hj : jsonLoads b = none := by
        unfold jsonLoads
        rw [hs]
        show (if c = '{' then jsonLoadsObj b rest else none) = none
        exact if_neg hpc
      unfold emitLine
      rw [hs, hj]
      rfl

/-- C6: a poll cycle over a queue file whose new bytes are one invalid-or-
blank line between two valid record lines (no break characters in any line;
the bad line blank or starting with a character that cannot begin a JSON
value, so CPython's `json.loads` raises and the model's `emitLine` returns
`none` alike) emits exactly the two valid records' notifications, in file
order, skipping only the bad line, and the iteration raises nothing. -/
theorem tailer_skips_malformed_line (a b c : List Char) (oa oc : String)
    (hna : ∀ ch ∈ a, isLineBreak ch = false) (hnb : ∀ ch ∈ b, isLineBreak ch = false)
    (hnc : ∀ ch ∈ c, isLineBreak ch = false)
    (hva : emitLine a = some oa) (hinv : clearlyInvalid b = true)
    (hvc : emitLine c = some oc) :
    (pollCycle 0 (TailEvent.content (joinLines [a, b, c]))).output = [oa, oc] ∧
    (pollCycle 0 (TailEvent.content (joinLines [a, b, c]))).fatal = false := by
  have hvb : emitLine b = none := emitLine_of_clearlyInvalid b hinv
  have hmem : ∀ l ∈ [a, b, c], ∀ ch ∈ l, isLineBreak ch = false := by
    intro l hl
    simp only [List.mem_cons, List.not_mem_nil, or_false] at hl
    rcases hl with rfl | rfl | rfl <;> assumption
  have h0 : (0 : Nat) = (joinLines ([a, b, c].take 0)).length := rfl
  rw [h0, pollCycle_resume [a, b, c] 0 hmem]
  constructor
  · simp [List.filterMap_cons, hva, hvb, hvc]
  · rfl

theorem tailer_skips_malformed_line_witness :
    (pollCycle 0 (TailEvent.content (joinLines [exHi, ("oops").data, exBye]))).output
      = ["[pi:room1] hi (did=abc, ts=1)", "[pi:room1] bye (did=abc, ts=2)"] ∧
    (pollCycle 0 (TailEvent.content (joinLines [exHi, ("oops").data, exBye]))).fatal
      = false :=
  tailer_skips_malformed_line exHi ("oops").data exBye
    "[pi:room1] hi (did=abc, ts=1)" "[pi:room1] bye (did=abc, ts=2)"
    (by decide) (by decide) (by decide) (by decide) (by decide) (by decide)

/-- C7: every poll cycle that observes the queue file ends with the cursor
equal to the file length seen when the read began, and persists exactly that
value via `save_offset`; in particular the state file is rewritten on every
cycle that saw new bytes. -/
theorem tailer_cursor_to_length (off : Nat) (s : List Char) :
    (pollCycle off (TailEvent.content s)).offset = s.length ∧
    (pollCycle off (TailEvent.content s)).saved = some s.length := by
  simp only [pollCycle]
  by_cases h : s.length < off
  · rw [if_pos h]
    simp
  · rw [if_neg h]
    have hlen : off + (s.drop off).length = s.length := by
      rw [List.length_drop]
      omega
    exact ⟨hlen, by rw [hlen]⟩

/-- C8: feeding three stdin chunks and three FIFO lines in alternating
readiness order delivers all six to the output sink, with each source's
chunks in their original relative order (here: the full interleaving is the
alternation itself). -/
theorem mux_interleaving_order (a1 a2 a3 b1 b2 b3 : List Char)
    (ha1 : a1 ≠ []) (ha2 : a2 ≠ []) (ha3 : a3 ≠ [])
    (hb1 : endsNL b1 = true) (hb2 : endsNL b2 = true) (hb3 : endsNL b3 = true) :
    (muxRun [MuxEvent.arriveA a1, MuxEvent.wakeA, MuxEvent.arriveB b1, MuxEvent.wakeB,
             MuxEvent.arriveA a2, MuxEvent.wakeA, MuxEvent.arriveB b2, MuxEvent.wakeB,
             MuxEvent.arriveA a3, MuxEvent.wakeA, MuxEvent.arriveB b3, MuxEvent.wakeB]).output
      = [a1, b1, a2, b2, a3, b3] := by
  simp [muxRun, muxInit, muxStep,
    isEmpty_false_of_ne_nil ha1, isEmpty_false_of_ne_nil ha2, isEmpty_false_of_ne_nil ha3,
    hb1, hb2, hb3]

theorem mux_interleaving_order_witness :
    (muxRun [MuxEvent.arriveA ['a', '1', '\n'], MuxEvent.wakeA,
             MuxEvent.arriveB ['b', '1', '\n'], MuxEvent.wakeB,
             MuxEvent.arriveA ['a', '2', '\n'], MuxEvent.wakeA,
             MuxEvent.arriveB ['b', '2', '\n'], MuxEvent.wakeB,
             MuxEvent.arriveA ['a', '3', '\n'], MuxEvent.wakeA,
             MuxEvent.arriveB ['b', '3', '\n'], MuxEvent.wakeB]).output
      = [['a', '1', '\n'], ['b', '1', '\n'], ['a', '2', '\n'],
         ['b', '2', '\n'], ['a', '3', '\n'], ['b', '3', '\n']] :=
  mux_interleaving_order _ _ _ _ _ _
    (by decide) (by decide) (by decide) (by decide) (by decide) (by decide)

/-- C9 (amended): the FIFO is opened once, non-blocking read-only, before the
loop and stays registered forever; a wake-up whose `readline` comes back
empty (no data, or EOF after the writer closed) is a no-op rather than a
deregistration, so a line written by a later writer is still delivered — the
multiplexer is never permanently deaf on Source B, with no reopen involved
(`fifoOpens` stays 1). -/
theorem mux_pipe_persistent (b1 b2 : List Char)
    (h1 : endsNL b1 = true) (h2 : endsNL b2 = true) :
    (muxRun [MuxEvent.arriveB b1, MuxEvent.wakeB, MuxEvent.wakeB, MuxEvent.wakeB,
             MuxEvent.arriveB b2, MuxEvent.wakeB]).output = [b1, b2] ∧
    (muxRun [MuxEvent.arriveB b1, MuxEvent.wakeB, MuxEvent.wakeB, MuxEvent.wakeB,
             MuxEvent.arriveB b2, MuxEvent.wakeB]).fifoOpens = 1 := by
  constructor <;> simp [muxRun, muxInit, muxStep, h1, h2]

theorem mux_pipe_persistent_witness :
    (muxRun [MuxEvent.arriveB ['p', '\n'], MuxEvent.wakeB, MuxEvent.wakeB, MuxEvent.wakeB,
             MuxEvent.arriveB ['q', '\n'], MuxEvent.wakeB]).output
      = [['p', '\n'], ['q', '\n']] ∧
    (muxRun [MuxEvent.arriveB ['p', '\n'], MuxEvent.wakeB, MuxEvent.wakeB, MuxEvent.wakeB,
             MuxEvent.arriveB ['q', '\n'], MuxEvent.wakeB]).fifoOpens = 1 :=
  mux_pipe_persistent ['p', '\n'] ['q', '\n'] (by decide) (by decide)

/-- C9 (counterexample): in the writer-closes-then-new-writer scenario the
new line is delivered while the FIFO open count is still 1 — the code never
performs the reopen the claim describes; delivery rests on the single
persistent non-blocking descriptor, not on reopening after EOF. -/
theorem mux_reopen_refuted :
    ¬ 2 ≤ (muxRun [MuxEvent.arriveB ['x', '\n'], MuxEvent.wakeB, MuxEvent.wakeB,
             MuxEvent.arriveB ['y', '\n'], MuxEvent.wakeB]).fifoOpens ∧
    (muxRun [MuxEvent.arriveB ['x', '\n'], MuxEvent.wakeB, MuxEvent.wakeB,
             MuxEvent.arriveB ['y', '\n'], MuxEvent.wakeB]).output
      = [['x', '\n'], ['y', '\n']] := by
  exact ⟨by decide, by decide⟩

/-- C10: a queue line (break-character-free, as lines produced by
`str.splitlines` are) that the strict conservative parser decodes to a JSON
object — so CPython's `json.loads` decodes it to the same dict — missing any
of `ts`, `did`, `text`, `target` is still emitted (never skipped and never
an error), with the Python string `None` substituted for each absent field
in the notification format. -/
theorem tailer_missing_fields_none (l : List Char) (e : Entry)
    (hnb : ∀ ch ∈ l, isLineBreak ch = false)
    (h : jsonLoads l = some e) :
    emitLine l = some (formatEntry e) ∧
    formatEntry e = "[pi:" ++ pyStr (pyGet e "target") ++ "] " ++ pyStr (pyGet e "text")
      ++ " (did=" ++ pyStr (pyGet e "did") ++ ", ts=" ++ pyStr (pyGet e "ts") ++ ")" ∧
    pyStr none = "None" := by
  refine ⟨?_, rfl, rfl⟩
  have hne : (skipWS l).isEmpty = false := by
    rcases hd : (skipWS l).isEmpty with _ | _
    · rfl
    · exfalso
      have hD : skipWS l = [] := by
        cases he : skipWS l with
        | nil => rfl
        | cons x xs => rw [he] at hd; exact Bool.noConfusion hd
      unfold jsonLoads at h
      rw [hD] at h
      exact Option.noConfusion h
  simp [emitLine, hne, h]

theorem tailer_missing_fields_none_witness :
    emitLine exMissing = some "[pi:None] None (did=None, ts=1)" ∧ pyStr none = "None" :=
  ⟨((tailer_missing_fields_none exMissing [("ts", JVal.jint 1)] (by decide) (by decide)).1).trans
      (by decide),
   (tailer_missing_fields_none exMissing [("ts", JVal.jint 1)] (by decide) (by decide)).2.2⟩
